import Mathlib

/-!
Shallow embedding of the slasher watchdog service
(`crates/slasher/src/lib.rs`): the durable order store, the three event
reducers, the expired-request scheduler pass, and the supervisor loop,
together with theorems about them.

The store itself (`SqliteDb`, `mod db`) is not part of the sources at
hand, so its operations are modelled from the specification (§4.A); each
such definition is marked in its doc comment.  Every other definition is
translated directly from `lib.rs`.
-/

namespace Slasher

/-- Rust u64 modulus, for the places where the code does u64 arithmetic
that can wrap. -/
def U64 : Nat := 2 ^ 64

/-- The `ServiceError` enum of `lib.rs`.  Payloads that no theorem needs
are dropped; the ones the claims mention are kept. -/
inductive ServiceError where
  | DatabaseError
  | BoundlessMarketError
  | RpcError
  | EventQueryError
  | TransactionDecodingError
  | BlockNumberNotFound
  | BlockTimestampNotFound (block : Nat)
  | InsufficientFunds
  | MaxRetries
  | RequestNotExpired
  | SlashRevert (requestId : Nat) (txHash : Nat)
  deriving DecidableEq

/-- An order row: the two deadlines tracked for a locked request. -/
structure OrderRow where
  expiresAt : Nat
  lockExpiresAt : Nat
  deriving DecidableEq

/-- Modelled from the spec: the durable order store of the missing `db`
module — order rows keyed by request id plus the last-processed-block
cursor. -/
structure Db where
  orders : List (Nat × OrderRow)
  lastBlock : Option Nat
  deriving DecidableEq

/-- Modelled from the spec: `get(request_id)`, absent when unknown. -/
def Db.getOrder (db : Db) (id : Nat) : Option OrderRow :=
  (db.orders.find? (fun p => p.1 == id)).map (fun p => p.2)

/-- Modelled from the spec: `add(request_id, expires_at, lock_expires_at)`;
on an existing primary key, overwrite. -/
def Db.addOrder (db : Db) (id ea lea : Nat) : Db :=
  { db with orders := (id, ⟨ea, lea⟩) :: db.orders.filter (fun p => p.1 != id) }

/-- Modelled from the spec: `remove(request_id)`; idempotent, a missing
row is not an error. -/
def Db.removeOrder (db : Db) (id : Nat) : Db :=
  { db with orders := db.orders.filter (fun p => p.1 != id) }

/-- Due ordering of rows: ascending `expires_at`, tie-break ascending
request id. -/
def dueLe (a b : Nat × OrderRow) : Bool :=
  Nat.blt a.2.expiresAt b.2.expiresAt ||
    (a.2.expiresAt == b.2.expiresAt && Nat.ble a.1 b.1)

/-- Insertion step of the due-order sort. -/
def insertDue (x : Nat × OrderRow) : List (Nat × OrderRow) → List (Nat × OrderRow)
  | [] => [x]
  | y :: ys => if dueLe x y then x :: y :: ys else y :: insertDue x ys

/-- Insertion sort by the due ordering. -/
def sortDue : List (Nat × OrderRow) → List (Nat × OrderRow)
  | [] => []
  | x :: xs => insertDue x (sortDue xs)

/-- Modelled from the spec: `due_before(ts)` / `get_expired_orders`; all
rows whose `expires_at ≤ ts`, ascending by (`expires_at`, request id). -/
def Db.getExpiredOrders (db : Db) (ts : Nat) : List Nat :=
  (sortDue (db.orders.filter (fun p => Nat.ble p.2.expiresAt ts))).map (fun p => p.1)

/-- Modelled from the spec: `get_last_block`. -/
def Db.getLastBlock (db : Db) : Option Nat := db.lastBlock

/-- Modelled from the spec: `set_last_block` / `set_cursor`, which rejects
a value strictly less than the current one (monotonicity invariant);
the rejection surfaces as a store error. -/
def Db.setLastBlock (db : Db) (b : Nat) : Except ServiceError Db :=
  match db.lastBlock with
  | some cur =>
    if b < cur then Except.error ServiceError.DatabaseError
    else Except.ok { db with lastBlock := some b }
  | none => Except.ok { db with lastBlock := some b }

/-- A `RequestLocked` event as consumed by `process_locked_events`. -/
structure LockedEvent where
  requestId : Nat
  prover : Nat
  rampUpStart : Nat
  lockTimeout : Nat
  timeout : Nat
  deriving DecidableEq

/-- A `RequestFulfilled` log together with its optional block metadata. -/
structure FulfilledLog where
  requestId : Nat
  blockNumber : Option Nat
  blockTimestamp : Option Nat
  deriving DecidableEq

/-- A `ProverSlashed` log. -/
structure SlashedLog where
  requestId : Nat
  deriving DecidableEq

/-- Result of the `block_timestamp` chain call: the header timestamp, an
RPC failure, or a missing block (`BlockTimestampNotFound`). -/
inductive TsResult where
  | found (ts : Nat)
  | rpcFailure
  | missingBlock
  deriving DecidableEq

/-- Outcome of `boundless_market.slash(request_id)` as discriminated by
the match in `process_expired_requests`: the three structured market
errors, then the string-matched classes of the generic arm. -/
inductive SlashCallResult where
  | success
  | requestIsSlashed
  | slashRevert (txHash : Nat)
  | logNotEmitted (txHash : Nat)
  | errRequestSlashedOrFulfilled
  | errRequestIsNotExpired
  | errInsufficientFunds
  | errRequestIsNotLocked
  | errOther
  deriving DecidableEq

/-- The chain as observed during one tick: event query results for the
processed range and responses to the chain calls.  A `none` log list is a
failed event query. -/
structure TickEnv where
  lockedLogs : Option (List LockedEvent)
  fulfilledLogs : Option (List FulfilledLog)
  slashedLogs : Option (List SlashedLog)
  blockTimestamp : Nat → TsResult
  slashCall : Nat → SlashCallResult
  isSlashed : Nat → Option Bool

/-- Store-mutating and dispatch actions, recorded in the order the tick
performs them. -/
inductive Action where
  | lockedAdd (id : Nat)
  | fulfilledCheck (id : Nat)
  | slashedRemove (id : Nat)
  | schedule (id : Nat)
  | cursorSet (b : Nat)
  deriving DecidableEq

/-- Result of a phase of the tick: the store after all effects performed
so far (partial effects persist across an error), the actions taken, and
the error that aborted the phase when one did. -/
structure StepOut where
  db : Db
  trace : List Action
  err : Option ServiceError
  deriving DecidableEq

/-- Modelled from the spec: `request.expires_at()` of the external market
crate, `expires_at = ramp_up_start + timeout` (u64 arithmetic). -/
def requestExpiresAt (e : LockedEvent) : Nat := (e.rampUpStart + e.timeout) % U64

/-- The computation `lock_expires_at = request.offer.rampUpStart + request.offer.lockTimeout`
(u64 arithmetic), from `process_locked_events`. -/
def lockExpiresAtOf (e : LockedEvent) : Nat := (e.rampUpStart + e.lockTimeout) % U64

/-- The loop body of `process_locked_events`: skip events whose prover is
in the skip list, otherwise add the order. -/
def lockedLoop (skip : List Nat) : List LockedEvent → Db → List Action → StepOut
  | [], db, tr => ⟨db, tr, none⟩
  | e :: rest, db, tr =>
    if skip.contains e.prover then lockedLoop skip rest db tr
    else
      lockedLoop skip rest
        (db.addOrder e.requestId (requestExpiresAt e) (lockExpiresAtOf e))
        (tr ++ [Action.lockedAdd e.requestId])

/-- The function `process_locked_events`: a failed event query is an `EventQueryError`;
otherwise fold the logs. -/
def processLockedEvents (env : TickEnv) (skip : List Nat) (db : Db) : StepOut :=
  match env.lockedLogs with
  | none => ⟨db, [], some ServiceError.EventQueryError⟩
  | some logs => lockedLoop skip logs db []

/-- Resolve the block timestamp of a fulfilled log: use the log timestamp
when present, otherwise look it up by the block number of the log
(`process_fulfilled_events`, before the store is consulted). -/
def resolveTs (env : TickEnv) (log : FulfilledLog) : Except ServiceError Nat :=
  match log.blockTimestamp with
  | some ts => Except.ok ts
  | none =>
    match log.blockNumber with
    | none => Except.error ServiceError.BlockNumberNotFound
    | some bn =>
      match env.blockTimestamp bn with
      | TsResult.found ts => Except.ok ts
      | TsResult.rpcFailure => Except.error ServiceError.RpcError
      | TsResult.missingBlock => Except.error (ServiceError.BlockTimestampNotFound bn)

/-- One fulfilled log: resolve the timestamp, then consult the store; an
untracked request is dropped; a tracked row is removed exactly when the
fulfillment landed within the lock period. -/
def handleFulfilled (env : TickEnv) (db : Db) (log : FulfilledLog) :
    Except ServiceError (Db × List Action) :=
  match resolveTs env log with
  | Except.error e => Except.error e
  | Except.ok ts =>
    match db.getOrder log.requestId with
    | none => Except.ok (db, [])
    | some row =>
      if ts ≤ row.lockExpiresAt then
        Except.ok (db.removeOrder log.requestId, [Action.fulfilledCheck log.requestId])
      else
        Except.ok (db, [Action.fulfilledCheck log.requestId])

/-- The loop of `process_fulfilled_events` over the queried logs. -/
def fulfilledLoop (env : TickEnv) : List FulfilledLog → Db → List Action → StepOut
  | [], db, tr => ⟨db, tr, none⟩
  | log :: rest, db, tr =>
    match handleFulfilled env db log with
    | Except.error e => ⟨db, tr, some e⟩
    | Except.ok (db2, acts) => fulfilledLoop env rest db2 (tr ++ acts)

/-- The function `process_fulfilled_events`. -/
def processFulfilledEvents (env : TickEnv) (db : Db) : StepOut :=
  match env.fulfilledLogs with
  | none => ⟨db, [], some ServiceError.EventQueryError⟩
  | some logs => fulfilledLoop env logs db []

/-- The loop of `process_slashed_events`: remove unconditionally. -/
def slashedLoop : List SlashedLog → Db → List Action → StepOut
  | [], db, tr => ⟨db, tr, none⟩
  | log :: rest, db, tr =>
    slashedLoop rest (db.removeOrder log.requestId)
      (tr ++ [Action.slashedRemove log.requestId])

/-- The function `process_slashed_events`. -/
def processSlashedEvents (env : TickEnv) (db : Db) : StepOut :=
  match env.slashedLogs with
  | none => ⟨db, [], some ServiceError.EventQueryError⟩
  | some logs => slashedLoop logs db []

/-- The dispatch loop of `process_expired_requests` over the due request
ids, mirroring its outcome match arm by arm. -/
def expiredLoop (env : TickEnv) : List Nat → Db → List Action → StepOut
  | [], db, tr => ⟨db, tr, none⟩
  | id :: rest, db, tr =>
    match env.slashCall id with
    | SlashCallResult.success =>
      expiredLoop env rest (db.removeOrder id) (tr ++ [Action.schedule id])
    | SlashCallResult.requestIsSlashed =>
      expiredLoop env rest (db.removeOrder id) (tr ++ [Action.schedule id])
    | SlashCallResult.slashRevert tx =>
      match env.isSlashed id with
      | none => ⟨db, tr ++ [Action.schedule id], some ServiceError.BoundlessMarketError⟩
      | some true => expiredLoop env rest (db.removeOrder id) (tr ++ [Action.schedule id])
      | some false => ⟨db, tr ++ [Action.schedule id], some (ServiceError.SlashRevert id tx)⟩
    | SlashCallResult.logNotEmitted tx =>
      match env.isSlashed id with
      | none => ⟨db, tr ++ [Action.schedule id], some ServiceError.BoundlessMarketError⟩
      | some true => expiredLoop env rest (db.removeOrder id) (tr ++ [Action.schedule id])
      | some false => ⟨db, tr ++ [Action.schedule id], some (ServiceError.SlashRevert id tx)⟩
    | SlashCallResult.errRequestSlashedOrFulfilled =>
      expiredLoop env rest (db.removeOrder id) (tr ++ [Action.schedule id])
    | SlashCallResult.errRequestIsNotExpired =>
      ⟨db, tr ++ [Action.schedule id], some ServiceError.RequestNotExpired⟩
    | SlashCallResult.errInsufficientFunds =>
      ⟨db, tr ++ [Action.schedule id], some ServiceError.InsufficientFunds⟩
    | SlashCallResult.errRequestIsNotLocked =>
      expiredLoop env rest (db.removeOrder id) (tr ++ [Action.schedule id])
    | SlashCallResult.errOther =>
      ⟨db, tr ++ [Action.schedule id], some ServiceError.BoundlessMarketError⟩

/-- The function `process_expired_requests`: read the timestamp of the range end,
collect the due rows, dispatch sequentially. -/
def processExpiredRequests (env : TickEnv) (db : Db) (currentBlock : Nat) : StepOut :=
  match env.blockTimestamp currentBlock with
  | TsResult.rpcFailure => ⟨db, [], some ServiceError.RpcError⟩
  | TsResult.missingBlock =>
    ⟨db, [], some (ServiceError.BlockTimestampNotFound currentBlock)⟩
  | TsResult.found ts => expiredLoop env (db.getExpiredOrders ts) db []

/-- Sequence two phases of the tick: the second runs only when the first
succeeded; an error keeps the store reached so far. -/
def seqStep (s : StepOut) (f : Db → StepOut) : StepOut :=
  match s.err with
  | some _ => s
  | none =>
    let s2 := f s.db
    ⟨s2.db, s.trace ++ s2.trace, s2.err⟩

/-- The function `update_last_processed_block`: persist the cursor, as the final phase
of the tick. -/
def updateLastProcessedBlock (toBlock : Nat) (db : Db) : StepOut :=
  match db.setLastBlock toBlock with
  | Except.error e => ⟨db, [], some e⟩
  | Except.ok db2 => ⟨db2, [Action.cursorSet toBlock], none⟩

/-- The function `process_blocks`: the locked, fulfilled and slashed reducers, then
the expired-request scheduler pass, and finally the cursor update. -/
def processBlocks (env : TickEnv) (skip : List Nat) (db : Db) (toBlock : Nat) : StepOut :=
  seqStep (processLockedEvents env skip db) (fun db1 =>
  seqStep (processFulfilledEvents env db1) (fun db2 =>
  seqStep (processSlashedEvents env db2) (fun db3 =>
  seqStep (processExpiredRequests env db3 toBlock)
    (updateLastProcessedBlock toBlock))))

/-- The error classification of `run`: irrecoverable kinds return the
error, recoverable kinds bump the attempt counter. -/
def ServiceError.isFatal : ServiceError → Bool
  | ServiceError.DatabaseError => true
  | ServiceError.InsufficientFunds => true
  | ServiceError.MaxRetries => true
  | ServiceError.TransactionDecodingError => true
  | ServiceError.BlockNumberNotFound => true
  | ServiceError.RequestNotExpired => true
  | ServiceError.BoundlessMarketError => false
  | ServiceError.SlashRevert _ _ => false
  | ServiceError.EventQueryError => false
  | ServiceError.RpcError => false
  | ServiceError.BlockTimestampNotFound _ => false

/-- The configuration fields of `SlashServiceConfig` that the supervisor
logic reads. -/
structure SlashServiceConfig where
  retries : Nat
  maxBlockRange : Nat
  skipAddresses : List Nat

/-- The u64 computation of the chunk upper bound in `run`:
`from_block + max_block_range - 1` with wrapping add and wrapping sub,
capped at the head. -/
def chunkTo (fromBlock maxBlockRange toBlock : Nat) : Nat :=
  min (((fromBlock + maxBlockRange) % U64 + (U64 - 1)) % U64) toBlock

/-- The mutable supervisor state of `run`: the next block to process and
the consecutive-failure counter. -/
structure SupState where
  fromBlock : Nat
  attempt : Nat
  deriving DecidableEq

/-- Input of one tick: the result of `current_block` (`none` is a failed
fetch) and, when consulted, the chain contents for the processed range. -/
structure TickInput where
  head : Option Nat
  env : TickEnv

/-- Outcome of one iteration of the loop in `run`: continue with a new state,
or return an error. -/
inductive TickOutcome where
  | next (st : SupState) (db : Db) (trace : List Action)
  | halt (e : ServiceError) (db : Db) (trace : List Action)
  deriving DecidableEq

/-- One iteration of the loop in `run`: fetch the head, skip when the tip is
behind, otherwise process the chunk and classify the result; the
consecutive-attempt ceiling is checked at the bottom of the iteration
(the tip-retreat branch skips it, as the Rust `continue` does). -/
def tickStep (cfg : SlashServiceConfig) (st : SupState) (db : Db) (inp : TickInput) :
    TickOutcome :=
  match inp.head with
  | none =>
    if st.attempt + 1 > cfg.retries then TickOutcome.halt ServiceError.MaxRetries db []
    else TickOutcome.next ⟨st.fromBlock, st.attempt + 1⟩ db []
  | some toBlock =>
    if toBlock < st.fromBlock then TickOutcome.next st db []
    else
      let s := processBlocks inp.env cfg.skipAddresses db
        (chunkTo st.fromBlock cfg.maxBlockRange toBlock)
      match s.err with
      | none =>
        if 0 > cfg.retries then TickOutcome.halt ServiceError.MaxRetries s.db s.trace
        else
          TickOutcome.next
            ⟨(chunkTo st.fromBlock cfg.maxBlockRange toBlock + 1) % U64, 0⟩ s.db s.trace
      | some e =>
        if e.isFatal then TickOutcome.halt e s.db s.trace
        else
          if st.attempt + 1 > cfg.retries then
            TickOutcome.halt ServiceError.MaxRetries s.db s.trace
          else TickOutcome.next ⟨st.fromBlock, st.attempt + 1⟩ s.db s.trace

/-- The startup computation of the first `from_block` in `run`:
`min(starting_block ?? stored_cursor ?? head, head)`. -/
def initialFromBlock (startingBlock : Option Nat) (storedCursor : Option Nat)
    (head : Nat) : Nat :=
  min (startingBlock.getD (storedCursor.getD head)) head

/-- Run the supervisor loop over a finite schedule of tick inputs,
returning the final state, store, and the error when the loop returned. -/
def runTicks (cfg : SlashServiceConfig) :
    List TickInput → SupState → Db → SupState × Db × Option ServiceError
  | [], st, db => (st, db, none)
  | inp :: rest, st, db =>
    match tickStep cfg st db inp with
    | TickOutcome.next st2 db2 _ => runTicks cfg rest st2 db2
    | TickOutcome.halt e db2 _ => (st, db2, some e)

/-- A full service run: compute the initial `from_block` from the
operator-supplied start, the stored cursor, and the head, then run the
ticks from `attempt = 0`. -/
def runService (cfg : SlashServiceConfig) (startingBlock : Option Nat) (head : Nat)
    (inputs : List TickInput) (db : Db) : SupState × Db × Option ServiceError :=
  runTicks cfg inputs ⟨initialFromBlock startingBlock db.getLastBlock head, 0⟩ db

/-- Ordering on optional cursor values: an unset cursor precedes
everything; set cursors compare by value and never become unset. -/
def cursorLe (a b : Option Nat) : Prop :=
  match a, b with
  | none, _ => True
  | some x, some y => x ≤ y
  | some _, none => False

/-- The store carried by a tick outcome, whichever constructor. -/
def TickOutcome.getDb : TickOutcome → Db
  | TickOutcome.next _ db _ => db
  | TickOutcome.halt _ db _ => db

/-- A quiet chain environment: no events, timestamp 0 everywhere, every
slash call succeeds.  Used to instantiate theorems on concrete inputs. -/
def quietEnv : TickEnv :=
  ⟨some [], some [], some [], fun _ => TsResult.found 0,
   fun _ => SlashCallResult.success, fun _ => some true⟩

/-! ## Basic store lemmas -/

theorem find_eq_none_filter_ne (id : Nat) (l : List (Nat × OrderRow)) :
    (l.filter (fun p => p.1 != id)).find? (fun p => p.1 == id) = none := by
  induction l with
  | nil => rfl
  | cons x xs ih =>
    rcases eq_or_ne x.1 id with h | h
    · simp [List.filter_cons, h, ih]
    · simp [List.filter_cons, h, List.find?_cons, ih]

theorem Db.getOrder_removeOrder_self (db : Db) (id : Nat) :
    (db.removeOrder id).getOrder id = none := by
  simp [Db.getOrder, Db.removeOrder, find_eq_none_filter_ne]

theorem Db.lastBlock_addOrder (db : Db) (id ea lea : Nat) :
    (db.addOrder id ea lea).lastBlock = db.lastBlock := rfl

theorem Db.lastBlock_removeOrder (db : Db) (id : Nat) :
    (db.removeOrder id).lastBlock = db.lastBlock := rfl

/-! ## Phase shape lemmas: the reducers and the scheduler never touch the
cursor, never produce a `MaxRetries` error, and emit only their own kind
of action. -/

theorem lockedLoop_lastBlock (skip : List Nat) (logs : List LockedEvent) :
    ∀ (db : Db) (tr : List Action),
      (lockedLoop skip logs db tr).db.lastBlock = db.lastBlock := by
  induction logs with
  | nil => intro db tr; rfl
  | cons e rest ih =>
    intro db tr
    by_cases h : e.prover ∈ skip
    · simpa [lockedLoop, h] using ih db tr
    · simpa [lockedLoop, h] using ih _ _

theorem lockedLoop_err (skip : List Nat) (logs : List LockedEvent) :
    ∀ (db : Db) (tr : List Action), (lockedLoop skip logs db tr).err = none := by
  induction logs with
  | nil => intro db tr; rfl
  | cons e rest ih =>
    intro db tr
    by_cases h : e.prover ∈ skip
    · simpa [lockedLoop, h] using ih db tr
    · simpa [lockedLoop, h] using ih _ _

theorem handleFulfilled_shape (env : TickEnv) (db : Db) (log : FulfilledLog) :
    (∃ e, handleFulfilled env db log = Except.error e ∧
        resolveTs env log = Except.error e) ∨
    (∃ r, handleFulfilled env db log = Except.ok r ∧
        (r.1 = db ∨ r.1 = db.removeOrder log.requestId) ∧
        (r.2 = [] ∨ r.2 = [Action.fulfilledCheck log.requestId])) := by
  cases hts : resolveTs env log with
  | error e => exact Or.inl ⟨e, by simp [handleFulfilled, hts], rfl⟩
  | ok ts =>
    cases hrow : db.getOrder log.requestId with
    | none =>
      exact Or.inr ⟨(db, []), by simp [handleFulfilled, hts, hrow], Or.inl rfl, Or.inl rfl⟩
    | some row =>
      by_cases hle : ts ≤ row.lockExpiresAt
      · exact Or.inr ⟨(db.removeOrder log.requestId, [Action.fulfilledCheck log.requestId]),
          by simp [handleFulfilled, hts, hrow, hle], Or.inr rfl, Or.inr rfl⟩
      · exact Or.inr ⟨(db, [Action.fulfilledCheck log.requestId]),
          by simp [handleFulfilled, hts, hrow, hle], Or.inl rfl, Or.inr rfl⟩

theorem resolveTs_error_ne_maxRetries (env : TickEnv) (log : FulfilledLog)
    (e : ServiceError) (h : resolveTs env log = Except.error e) :
    e ≠ ServiceError.MaxRetries := by
  intro he
  subst he
  cases hts : log.blockTimestamp with
  | some ts => simp [resolveTs, hts] at h
  | none =>
    cases hbn : log.blockNumber with
    | none => simp [resolveTs, hts, hbn] at h
    | some bn =>
      cases henv : env.blockTimestamp bn with
      | found ts => simp [resolveTs, hts, hbn, henv] at h
      | rpcFailure => simp [resolveTs, hts, hbn, henv] at h
      | missingBlock => simp [resolveTs, hts, hbn, henv] at h

theorem fulfilledLoop_cons (env : TickEnv) (log : FulfilledLog)
    (rest : List FulfilledLog) (db : Db) (tr : List Action) :
    (∃ db2 acts, fulfilledLoop env (log :: rest) db tr =
        fulfilledLoop env rest db2 (tr ++ acts) ∧
        (db2 = db ∨ db2 = db.removeOrder log.requestId) ∧
        (acts = [] ∨ acts = [Action.fulfilledCheck log.requestId])) ∨
    (∃ e, fulfilledLoop env (log :: rest) db tr = ⟨db, tr, some e⟩ ∧
        resolveTs env log = Except.error e) := by
  rcases handleFulfilled_shape env db log with ⟨e, he, hres⟩ | ⟨r, hr, hdb, hacts⟩
  · exact Or.inr ⟨e, by simp [fulfilledLoop, he], hres⟩
  · exact Or.inl ⟨r.1, r.2, by simp [fulfilledLoop, hr], hdb, hacts⟩

theorem fulfilledLoop_lastBlock (env : TickEnv) (logs : List FulfilledLog) :
    ∀ (db : Db) (tr : List Action),
      (fulfilledLoop env logs db tr).db.lastBlock = db.lastBlock := by
  induction logs with
  | nil => intro db tr; rfl
  | cons log rest ih =>
    intro db tr
    rcases fulfilledLoop_cons env log rest db tr with
      ⟨db2, acts, heq, hdb, -⟩ | ⟨e, heq, -⟩
    · rw [heq, ih db2]
      rcases hdb with h | h <;> simp [h, Db.lastBlock_removeOrder]
    · rw [heq]

theorem fulfilledLoop_err_ne_maxRetries (env : TickEnv) (logs : List FulfilledLog) :
    ∀ (db : Db) (tr : List Action),
      (fulfilledLoop env logs db tr).err ≠ some ServiceError.MaxRetries := by
  induction logs with
  | nil => intro db tr h; exact Option.noConfusion h
  | cons log rest ih =>
    intro db tr
    rcases fulfilledLoop_cons env log rest db tr with
      ⟨db2, acts, heq, -, -⟩ | ⟨e, heq, hres⟩
    · rw [heq]; exact ih _ _
    · rw [heq]
      have := resolveTs_error_ne_maxRetries env log e hres
      simpa using this

theorem fulfilledLoop_trace (env : TickEnv) (logs : List FulfilledLog) :
    ∀ (db : Db) (tr : List Action), ∃ t,
      (fulfilledLoop env logs db tr).trace = tr ++ t ∧
      ∀ a ∈ t, ∃ i, a = Action.fulfilledCheck i := by
  induction logs with
  | nil => intro db tr; exact ⟨[], by simp [fulfilledLoop], by simp⟩
  | cons log rest ih =>
    intro db tr
    rcases fulfilledLoop_cons env log rest db tr with
      ⟨db2, acts, heq, -, hacts⟩ | ⟨e, heq, -⟩
    · obtain ⟨t, ht, hall⟩ := ih db2 (tr ++ acts)
      refine ⟨acts ++ t, ?_, ?_⟩
      · rw [heq, ht, List.append_assoc]
      · intro a ha
        rcases List.mem_append.mp ha with ha | ha
        · rcases hacts with h | h
          · rw [h] at ha; cases ha
          · rw [h] at ha
            rcases List.mem_singleton.mp ha with rfl
            exact ⟨log.requestId, rfl⟩
        · exact hall a ha
    · exact ⟨[], by rw [heq]; simp, by simp⟩

theorem slashedLoop_lastBlock (logs : List SlashedLog) :
    ∀ (db : Db) (tr : List Action),
      (slashedLoop logs db tr).db.lastBlock = db.lastBlock := by
  induction logs with
  | nil => intro db tr; rfl
  | cons log rest ih =>
    intro db tr
    simpa [slashedLoop] using ih _ _

theorem slashedLoop_err (logs : List SlashedLog) :
    ∀ (db : Db) (tr : List Action), (slashedLoop logs db tr).err = none := by
  induction logs with
  | nil => intro db tr; rfl
  | cons log rest ih =>
    intro db tr
    simpa [slashedLoop] using ih _ _

theorem slashedLoop_trace (logs : List SlashedLog) :
    ∀ (db : Db) (tr : List Action), ∃ t,
      (slashedLoop logs db tr).trace = tr ++ t ∧
      ∀ a ∈ t, ∃ i, a = Action.slashedRemove i := by
  induction logs with
  | nil => intro db tr; exact ⟨[], by simp [slashedLoop], by simp⟩
  | cons log rest ih =>
    intro db tr
    obtain ⟨t, ht, hall⟩ := ih (db.removeOrder log.requestId)
      (tr ++ [Action.slashedRemove log.requestId])
    refine ⟨Action.slashedRemove log.requestId :: t, ?_, ?_⟩
    · simp only [slashedLoop]
      rw [ht]
      simp
    · intro a ha
      rcases List.mem_cons.mp ha with rfl | ha
      · exact ⟨log.requestId, rfl⟩
      · exact hall a ha

theorem lockedLoop_trace (skip : List Nat) (logs : List LockedEvent) :
    ∀ (db : Db) (tr : List Action), ∃ t,
      (lockedLoop skip logs db tr).trace = tr ++ t ∧
      ∀ a ∈ t, ∃ i, a = Action.lockedAdd i := by
  induction logs with
  | nil => intro db tr; exact ⟨[], by simp [lockedLoop], by simp⟩
  | cons e rest ih =>
    intro db tr
    by_cases h : e.prover ∈ skip
    · obtain ⟨t, ht, hall⟩ := ih db tr
      exact ⟨t, by simpa [lockedLoop, h] using ht, hall⟩
    · obtain ⟨t, ht, hall⟩ := ih
        (db.addOrder e.requestId (requestExpiresAt e) (lockExpiresAtOf e))
        (tr ++ [Action.lockedAdd e.requestId])
      refine ⟨Action.lockedAdd e.requestId :: t, ?_, ?_⟩
      · rw [show (lockedLoop skip (e :: rest) db tr) =
            lockedLoop skip rest
              (db.addOrder e.requestId (requestExpiresAt e) (lockExpiresAtOf e))
              (tr ++ [Action.lockedAdd e.requestId]) by simp [lockedLoop, h]]
        rw [ht]
        simp
      · intro a ha
        rcases List.mem_cons.mp ha with rfl | ha
        · exact ⟨e.requestId, rfl⟩
        · exact hall a ha

theorem expiredLoop_cons (env : TickEnv) (id : Nat) (rest : List Nat)
    (db : Db) (tr : List Action) :
    (expiredLoop env (id :: rest) db tr =
        expiredLoop env rest (db.removeOrder id) (tr ++ [Action.schedule id])) ∨
    (∃ e, expiredLoop env (id :: rest) db tr =
        ⟨db, tr ++ [Action.schedule id], some e⟩ ∧ e ≠ ServiceError.MaxRetries) := by
  cases hc : env.slashCall id with
  | success => exact Or.inl (by simp [expiredLoop, hc])
  | requestIsSlashed => exact Or.inl (by simp [expiredLoop, hc])
  | slashRevert tx =>
    cases hs : env.isSlashed id with
    | none =>
      exact Or.inr ⟨ServiceError.BoundlessMarketError,
        by simp [expiredLoop, hc, hs], by simp⟩
    | some b =>
      cases b with
      | true => exact Or.inl (by simp [expiredLoop, hc, hs])
      | false =>
        exact Or.inr ⟨ServiceError.SlashRevert id tx,
          by simp [expiredLoop, hc, hs], by simp⟩
  | logNotEmitted tx =>
    cases hs : env.isSlashed id with
    | none =>
      exact Or.inr ⟨ServiceError.BoundlessMarketError,
        by simp [expiredLoop, hc, hs], by simp⟩
    | some b =>
      cases b with
      | true => exact Or.inl (by simp [expiredLoop, hc, hs])
      | false =>
        exact Or.inr ⟨ServiceError.SlashRevert id tx,
          by simp [expiredLoop, hc, hs], by simp⟩
  | errRequestSlashedOrFulfilled => exact Or.inl (by simp [expiredLoop, hc])
  | errRequestIsNotExpired =>
    exact Or.inr ⟨ServiceError.RequestNotExpired, by simp [expiredLoop, hc], by simp⟩
  | errInsufficientFunds =>
    exact Or.inr ⟨ServiceError.InsufficientFunds, by simp [expiredLoop, hc], by simp⟩
  | errRequestIsNotLocked => exact Or.inl (by simp [expiredLoop, hc])
  | errOther =>
    exact Or.inr ⟨ServiceError.BoundlessMarketError, by simp [expiredLoop, hc], by simp⟩

theorem expiredLoop_lastBlock (env : TickEnv) (ids : List Nat) :
    ∀ (db : Db) (tr : List Action),
      (expiredLoop env ids db tr).db.lastBlock = db.lastBlock := by
  induction ids with
  | nil => intro db tr; rfl
  | cons id rest ih =>
    intro db tr
    rcases expiredLoop_cons env id rest db tr with heq | ⟨e, heq, -⟩
    · rw [heq, ih]; rfl
    · rw [heq]

theorem expiredLoop_err_ne_maxRetries (env : TickEnv) (ids : List Nat) :
    ∀ (db : Db) (tr : List Action),
      (expiredLoop env ids db tr).err ≠ some ServiceError.MaxRetries := by
  induction ids with
  | nil => intro db tr h; exact Option.noConfusion h
  | cons id rest ih =>
    intro db tr
    rcases expiredLoop_cons env id rest db tr with heq | ⟨e, heq, hne⟩
    · rw [heq]; exact ih _ _
    · rw [heq]; simpa using hne

theorem expiredLoop_trace (env : TickEnv) (ids : List Nat) :
    ∀ (db : Db) (tr : List Action), ∃ t,
      (expiredLoop env ids db tr).trace = tr ++ t ∧
      ∀ a ∈ t, ∃ i, a = Action.schedule i := by
  induction ids with
  | nil => intro db tr; exact ⟨[], by simp [expiredLoop], by simp⟩
  | cons id rest ih =>
    intro db tr
    rcases expiredLoop_cons env id rest db tr with heq | ⟨e, heq, -⟩
    · obtain ⟨t, ht, hall⟩ := ih (db.removeOrder id) (tr ++ [Action.schedule id])
      refine ⟨Action.schedule id :: t, ?_, ?_⟩
      · rw [heq, ht]; simp
      · intro a ha
        rcases List.mem_cons.mp ha with rfl | ha
        · exact ⟨id, rfl⟩
        · exact hall a ha
    · refine ⟨[Action.schedule id], by rw [heq], ?_⟩
      intro a ha
      rcases List.mem_singleton.mp ha with rfl
      exact ⟨id, rfl⟩

theorem processLockedEvents_lastBlock (env : TickEnv) (skip : List Nat) (db : Db) :
    (processLockedEvents env skip db).db.lastBlock = db.lastBlock := by
  cases h : env.lockedLogs with
  | none => simp [processLockedEvents, h]
  | some logs => simpa [processLockedEvents, h] using lockedLoop_lastBlock skip logs db []

theorem processLockedEvents_err_ne (env : TickEnv) (skip : List Nat) (db : Db) :
    (processLockedEvents env skip db).err ≠ some ServiceError.MaxRetries := by
  cases h : env.lockedLogs with
  | none => simp [processLockedEvents, h]
  | some logs => simp [processLockedEvents, h, lockedLoop_err skip logs db []]

theorem processLockedEvents_trace (env : TickEnv) (skip : List Nat) (db : Db) :
    ∀ a ∈ (processLockedEvents env skip db).trace, ∃ i, a = Action.lockedAdd i := by
  cases h : env.lockedLogs with
  | none => simp [processLockedEvents, h]
  | some logs =>
    obtain ⟨t, ht, hall⟩ := lockedLoop_trace skip logs db []
    intro a ha
    rw [processLockedEvents, h] at ha
    rw [ht] at ha
    exact hall a (by simpa using ha)

theorem processFulfilledEvents_lastBlock (env : TickEnv) (db : Db) :
    (processFulfilledEvents env db).db.lastBlock = db.lastBlock := by
  cases h : env.fulfilledLogs with
  | none => simp [processFulfilledEvents, h]
  | some logs => simpa [processFulfilledEvents, h] using fulfilledLoop_lastBlock env logs db []

theorem processFulfilledEvents_err_ne (env : TickEnv) (db : Db) :
    (processFulfilledEvents env db).err ≠ some ServiceError.MaxRetries := by
  cases h : env.fulfilledLogs with
  | none => simp [processFulfilledEvents, h]
  | some logs =>
    simpa [processFulfilledEvents, h] using fulfilledLoop_err_ne_maxRetries env logs db []

theorem processFulfilledEvents_trace (env : TickEnv) (db : Db) :
    ∀ a ∈ (processFulfilledEvents env db).trace, ∃ i, a = Action.fulfilledCheck i := by
  cases h : env.fulfilledLogs with
  | none => simp [processFulfilledEvents, h]
  | some logs =>
    obtain ⟨t, ht, hall⟩ := fulfilledLoop_trace env logs db []
    intro a ha
    rw [processFulfilledEvents, h] at ha
    rw [ht] at ha
    exact hall a (by simpa using ha)

theorem processSlashedEvents_lastBlock (env : TickEnv) (db : Db) :
    (processSlashedEvents env db).db.lastBlock = db.lastBlock := by
  cases h : env.slashedLogs with
  | none => simp [processSlashedEvents, h]
  | some logs => simpa [processSlashedEvents, h] using slashedLoop_lastBlock logs db []

theorem processSlashedEvents_err_ne (env : TickEnv) (db : Db) :
    (processSlashedEvents env db).err ≠ some ServiceError.MaxRetries := by
  cases h : env.slashedLogs with
  | none => simp [processSlashedEvents, h]
  | some logs => simp [processSlashedEvents, h, slashedLoop_err logs db []]

theorem processSlashedEvents_trace (env : TickEnv) (db : Db) :
    ∀ a ∈ (processSlashedEvents env db).trace, ∃ i, a = Action.slashedRemove i := by
  cases h : env.slashedLogs with
  | none => simp [processSlashedEvents, h]
  | some logs =>
    obtain ⟨t, ht, hall⟩ := slashedLoop_trace logs db []
    intro a ha
    rw [processSlashedEvents, h] at ha
    rw [ht] at ha
    exact hall a (by simpa using ha)

theorem processExpiredRequests_lastBlock (env : TickEnv) (db : Db) (cb : Nat) :
    (processExpiredRequests env db cb).db.lastBlock = db.lastBlock := by
  cases h : env.blockTimestamp cb with
  | found ts => simpa [processExpiredRequests, h] using expiredLoop_lastBlock env _ db []
  | rpcFailure => simp [processExpiredRequests, h]
  | missingBlock => simp [processExpiredRequests, h]

theorem processExpiredRequests_err_ne (env : TickEnv) (db : Db) (cb : Nat) :
    (processExpiredRequests env db cb).err ≠ some ServiceError.MaxRetries := by
  cases h : env.blockTimestamp cb with
  | found ts =>
    simpa [processExpiredRequests, h] using expiredLoop_err_ne_maxRetries env _ db []
  | rpcFailure => simp [processExpiredRequests, h]
  | missingBlock => simp [processExpiredRequests, h]

theorem processExpiredRequests_trace (env : TickEnv) (db : Db) (cb : Nat) :
    ∀ a ∈ (processExpiredRequests env db cb).trace, ∃ i, a = Action.schedule i := by
  cases h : env.blockTimestamp cb with
  | found ts =>
    obtain ⟨t, ht, hall⟩ := expiredLoop_trace env (db.getExpiredOrders ts) db []
    intro a ha
    rw [processExpiredRequests, h] at ha
    rw [ht] at ha
    exact hall a (by simpa using ha)
  | rpcFailure => simp [processExpiredRequests, h]
  | missingBlock => simp [processExpiredRequests, h]

/-! ## Cursor-update and sequencing lemmas -/

theorem cursorLe_refl (a : Option Nat) : cursorLe a a := by
  cases a <;> simp [cursorLe]

theorem cursorLe_trans (a b c : Option Nat) (h1 : cursorLe a b) (h2 : cursorLe b c) :
    cursorLe a c := by
  cases a with
  | none => trivial
  | some x =>
    cases b with
    | none => exact absurd h1 (by simp [cursorLe])
    | some y =>
      cases c with
      | none => exact absurd h2 (by simp [cursorLe])
      | some z => exact Nat.le_trans h1 h2

theorem setLastBlock_ok (db : Db) (b : Nat) (db2 : Db)
    (h : db.setLastBlock b = Except.ok db2) :
    db2.lastBlock = some b ∧ cursorLe db.lastBlock (some b) := by
  cases hc : db.lastBlock with
  | none =>
    simp only [Db.setLastBlock, hc, Except.ok.injEq] at h
    rw [← h]
    exact ⟨rfl, trivial⟩
  | some cur =>
    by_cases hlt : b < cur
    · simp [Db.setLastBlock, hc, hlt] at h
    · simp only [Db.setLastBlock, hc, hlt, if_false, Except.ok.injEq, if_neg] at h
      rw [← h]
      exact ⟨rfl, by simpa [cursorLe, hc] using Nat.le_of_not_lt hlt⟩

theorem setLastBlock_error (db : Db) (b : Nat) (e : ServiceError)
    (h : db.setLastBlock b = Except.error e) : e = ServiceError.DatabaseError := by
  cases hc : db.lastBlock with
  | none => simp [Db.setLastBlock, hc] at h
  | some cur =>
    by_cases hlt : b < cur
    · simp only [Db.setLastBlock, hc, hlt, if_true, Except.error.injEq, if_pos] at h
      exact h.symm
    · simp [Db.setLastBlock, hc, hlt] at h

theorem seqStep_stuck (s : StepOut) (f : Db → StepOut) (e : ServiceError)
    (h : s.err = some e) : seqStep s f = s := by
  simp [seqStep, h]

theorem seqStep_go (s : StepOut) (f : Db → StepOut) (h : s.err = none) :
    seqStep s f = ⟨(f s.db).db, s.trace ++ (f s.db).trace, (f s.db).err⟩ := by
  simp [seqStep, h]

theorem seqStep_P (toBlock : Nat) (s : StepOut) (g : Db → StepOut) (db0 : Db)
    (hlb : s.db.lastBlock = db0.lastBlock)
    (hne : s.err ≠ some ServiceError.MaxRetries)
    (hg : ∀ db, ((g db).err = none → (g db).db.lastBlock = some toBlock ∧
            cursorLe db.lastBlock (some toBlock)) ∧
          (∀ e, (g db).err = some e → (g db).db.lastBlock = db.lastBlock) ∧
          (g db).err ≠ some ServiceError.MaxRetries) :
    ((seqStep s g).err = none → (seqStep s g).db.lastBlock = some toBlock ∧
        cursorLe db0.lastBlock (some toBlock)) ∧
    (∀ e, (seqStep s g).err = some e → (seqStep s g).db.lastBlock = db0.lastBlock) ∧
    (seqStep s g).err ≠ some ServiceError.MaxRetries := by
  cases hserr : s.err with
  | some e =>
    rw [seqStep_stuck _ _ e hserr]
    refine ⟨?_, ?_, ?_⟩
    · intro h
      rw [hserr] at h
      exact Option.noConfusion h
    · intro e2 _
      exact hlb
    · exact hne
  | none =>
    rw [seqStep_go _ _ hserr]
    obtain ⟨hg1, hg2, hg3⟩ := hg s.db
    refine ⟨?_, ?_, ?_⟩
    · intro h
      obtain ⟨ha, hb⟩ := hg1 h
      exact ⟨ha, hlb ▸ hb⟩
    · intro e2 h
      rw [hg2 e2 h, hlb]
    · exact hg3

theorem updateLastProcessedBlock_P (toBlock : Nat) (db : Db) :
    ((updateLastProcessedBlock toBlock db).err = none →
      (updateLastProcessedBlock toBlock db).db.lastBlock = some toBlock ∧
      cursorLe db.lastBlock (some toBlock)) ∧
    (∀ e, (updateLastProcessedBlock toBlock db).err = some e →
      (updateLastProcessedBlock toBlock db).db.lastBlock = db.lastBlock) ∧
    (updateLastProcessedBlock toBlock db).err ≠ some ServiceError.MaxRetries := by
  cases h : db.setLastBlock toBlock with
  | error e =>
    have he := setLastBlock_error db toBlock e h
    subst he
    refine ⟨?_, ?_, ?_⟩
    · intro hc
      simp [updateLastProcessedBlock, h] at hc
    · intro e2 _
      simp [updateLastProcessedBlock, h]
    · simp [updateLastProcessedBlock, h]
  | ok db2 =>
    obtain ⟨h1, h2⟩ := setLastBlock_ok db toBlock db2 h
    refine ⟨?_, ?_, ?_⟩
    · intro _
      exact ⟨by simpa [updateLastProcessedBlock, h] using h1, h2⟩
    · intro e2 hc
      simp [updateLastProcessedBlock, h] at hc
    · simp [updateLastProcessedBlock, h]

theorem processBlocks_cursor (env : TickEnv) (skip : List Nat) (db : Db) (toBlock : Nat) :
    ((processBlocks env skip db toBlock).err = none →
      (processBlocks env skip db toBlock).db.lastBlock = some toBlock ∧
      cursorLe db.lastBlock (some toBlock)) ∧
    (∀ e, (processBlocks env skip db toBlock).err = some e →
      (processBlocks env skip db toBlock).db.lastBlock = db.lastBlock) ∧
    (processBlocks env skip db toBlock).err ≠ some ServiceError.MaxRetries := by
  unfold processBlocks
  refine seqStep_P toBlock _ _ _ (processLockedEvents_lastBlock env skip db)
    (processLockedEvents_err_ne env skip db) ?_
  intro db1
  refine seqStep_P toBlock _ _ _ (processFulfilledEvents_lastBlock env db1)
    (processFulfilledEvents_err_ne env db1) ?_
  intro db2
  refine seqStep_P toBlock _ _ _ (processSlashedEvents_lastBlock env db2)
    (processSlashedEvents_err_ne env db2) ?_
  intro db3
  refine seqStep_P toBlock _ _ _ (processExpiredRequests_lastBlock env db3 toBlock)
    (processExpiredRequests_err_ne env db3 toBlock) ?_
  intro db4
  exact updateLastProcessedBlock_P toBlock db4

theorem processBlocks_cursorLe (env : TickEnv) (skip : List Nat) (db : Db) (toBlock : Nat) :
    cursorLe db.lastBlock (processBlocks env skip db toBlock).db.lastBlock := by
  obtain ⟨h1, h2, -⟩ := processBlocks_cursor env skip db toBlock
  cases herr : (processBlocks env skip db toBlock).err with
  | none =>
    obtain ⟨ha, hb⟩ := h1 herr
    rw [ha]
    exact hb
  | some e =>
    rw [h2 e herr]
    exact cursorLe_refl _

theorem seqStep_trace (s : StepOut) (g : Db → StepOut) :
    (seqStep s g).trace = s.trace ++ (g s.db).trace ∨ (seqStep s g).trace = s.trace := by
  cases h : s.err with
  | some e =>
    rw [seqStep_stuck _ _ e h]
    exact Or.inr rfl
  | none =>
    rw [seqStep_go _ _ h]
    exact Or.inl rfl

theorem updateLastProcessedBlock_trace (toBlock : Nat) (db : Db) :
    (updateLastProcessedBlock toBlock db).trace = [] ∨
    (updateLastProcessedBlock toBlock db).trace = [Action.cursorSet toBlock] := by
  cases h : db.setLastBlock toBlock with
  | error e => exact Or.inl (by simp [updateLastProcessedBlock, h])
  | ok db2 => exact Or.inr (by simp [updateLastProcessedBlock, h])

/-! ## Supervisor lemmas -/

theorem tickStep_cursorLe (cfg : SlashServiceConfig) (st : SupState) (db : Db)
    (inp : TickInput) :
    cursorLe db.lastBlock ((tickStep cfg st db inp).getDb).lastBlock := by
  cases hh : inp.head with
  | none =>
    by_cases ha : st.attempt + 1 > cfg.retries <;>
      simp [tickStep, hh, ha, TickOutcome.getDb, cursorLe_refl]
  | some toBlock =>
    by_cases hlt : toBlock < st.fromBlock
    · simp [tickStep, hh, hlt, TickOutcome.getDb, cursorLe_refl]
    · cases herr : (processBlocks inp.env cfg.skipAddresses db
          (chunkTo st.fromBlock cfg.maxBlockRange toBlock)).err with
      | none =>
        have hp := processBlocks_cursorLe inp.env cfg.skipAddresses db
          (chunkTo st.fromBlock cfg.maxBlockRange toBlock)
        by_cases h0 : 0 > cfg.retries <;>
          simpa [tickStep, hh, hlt, herr, h0, TickOutcome.getDb] using hp
      | some e =>
        have hp := processBlocks_cursorLe inp.env cfg.skipAddresses db
          (chunkTo st.fromBlock cfg.maxBlockRange toBlock)
        by_cases hf : e.isFatal <;> by_cases ha : st.attempt + 1 > cfg.retries <;>
          simpa [tickStep, hh, hlt, herr, hf, ha, TickOutcome.getDb] using hp

theorem runTicks_cursorLe (cfg : SlashServiceConfig) (inputs : List TickInput) :
    ∀ (st : SupState) (db : Db),
      cursorLe db.lastBlock (runTicks cfg inputs st db).2.1.lastBlock := by
  induction inputs with
  | nil => intro st db; exact cursorLe_refl _
  | cons inp rest ih =>
    intro st db
    cases hts : tickStep cfg st db inp with
    | next st2 db2 tr =>
      have h1 : cursorLe db.lastBlock db2.lastBlock := by
        simpa [hts, TickOutcome.getDb] using tickStep_cursorLe cfg st db inp
      have h2 := ih st2 db2
      simp only [runTicks, hts]
      exact cursorLe_trans _ _ _ h1 h2
    | halt e db2 tr =>
      have h1 : cursorLe db.lastBlock db2.lastBlock := by
        simpa [hts, TickOutcome.getDb] using tickStep_cursorLe cfg st db inp
      simpa [runTicks, hts] using h1

theorem tickStep_halt_maxRetries (cfg : SlashServiceConfig) (st : SupState) (db : Db)
    (inp : TickInput) (db2 : Db) (tr : List Action)
    (h : tickStep cfg st db inp = TickOutcome.halt ServiceError.MaxRetries db2 tr) :
    st.attempt + 1 > cfg.retries := by
  cases hh : inp.head with
  | none =>
    by_cases ha : st.attempt + 1 > cfg.retries
    · exact ha
    · simp [tickStep, hh, ha] at h
  | some toBlock =>
    by_cases hlt : toBlock < st.fromBlock
    · simp [tickStep, hh, hlt] at h
    · cases herr : (processBlocks inp.env cfg.skipAddresses db
          (chunkTo st.fromBlock cfg.maxBlockRange toBlock)).err with
      | none =>
        by_cases h0 : 0 > cfg.retries
        · exact absurd h0 (by omega)
        · simp [tickStep, hh, hlt, herr, h0] at h
      | some e =>
        by_cases hf : e.isFatal
        · exfalso
          simp only [tickStep, hh, hlt, if_neg hlt, herr, hf, if_true] at h
          have he : e = ServiceError.MaxRetries := by
            cases h
            rfl
          exact (processBlocks_cursor inp.env cfg.skipAddresses db
            (chunkTo st.fromBlock cfg.maxBlockRange toBlock)).2.2 (he ▸ herr)
        · by_cases ha : st.attempt + 1 > cfg.retries
          · exact ha
          · simp [tickStep, hh, hlt, herr, hf, ha] at h

theorem tickStep_headFail (cfg : SlashServiceConfig) (st : SupState) (db : Db)
    (env : TickEnv) :
    (st.attempt + 1 > cfg.retries →
      tickStep cfg st db ⟨none, env⟩ = TickOutcome.halt ServiceError.MaxRetries db []) ∧
    (¬ st.attempt + 1 > cfg.retries →
      tickStep cfg st db ⟨none, env⟩ =
        TickOutcome.next ⟨st.fromBlock, st.attempt + 1⟩ db []) := by
  constructor
  · intro ha
    simp [tickStep, ha]
  · intro ha
    simp [tickStep, ha]

theorem tickStep_reset_needs_success (cfg : SlashServiceConfig) (st : SupState)
    (db : Db) (inp : TickInput) (st2 : SupState) (db2 : Db) (tr : List Action)
    (h : tickStep cfg st db inp = TickOutcome.next st2 db2 tr)
    (h0 : st2.attempt = 0) (hne : st.attempt ≠ 0) :
    ∃ to_, inp.head = some to_ ∧ ¬ to_ < st.fromBlock ∧
      (processBlocks inp.env cfg.skipAddresses db
        (chunkTo st.fromBlock cfg.maxBlockRange to_)).err = none := by
  cases hh : inp.head with
  | none =>
    by_cases ha : st.attempt + 1 > cfg.retries
    · simp [tickStep, hh, ha] at h
    · simp only [tickStep, hh, if_neg ha] at h
      cases h
      simp at h0
  | some toBlock =>
    by_cases hlt : toBlock < st.fromBlock
    · simp only [tickStep, hh, if_pos hlt] at h
      cases h
      exact absurd h0 hne
    · cases herr : (processBlocks inp.env cfg.skipAddresses db
          (chunkTo st.fromBlock cfg.maxBlockRange toBlock)).err with
      | none => exact ⟨toBlock, rfl, hlt, herr⟩
      | some e =>
        by_cases hf : e.isFatal
        · simp [tickStep, hh, hlt, herr, hf] at h
        · by_cases ha : st.attempt + 1 > cfg.retries
          · simp [tickStep, hh, hlt, herr, hf, ha] at h
          · simp only [tickStep, hh, if_neg hlt, herr, hf, if_neg ha,
              Bool.false_eq_true, if_false] at h
            cases h
            simp at h0

theorem runTicks_headFail (cfg : SlashServiceConfig) (env : TickEnv) (fb : Nat) :
    ∀ (n a : Nat) (db : Db), a + n = cfg.retries + 1 → 1 ≤ n →
      runTicks cfg (List.replicate n ⟨none, env⟩) ⟨fb, a⟩ db =
        (⟨fb, cfg.retries⟩, db, some ServiceError.MaxRetries) := by
  intro n
  induction n with
  | zero => intro a db _ h1; omega
  | succ k ih =>
    intro a db hsum _
    rw [List.replicate_succ]
    cases k with
    | zero =>
      have ha : a = cfg.retries := by omega
      have hgt : a + 1 > cfg.retries := by omega
      have hstep := (tickStep_headFail cfg ⟨fb, a⟩ db env).1 hgt
      simp only [runTicks, hstep]
      rw [ha]
    | succ m =>
      have hle : ¬ a + 1 > cfg.retries := by omega
      have hstep := (tickStep_headFail cfg ⟨fb, a⟩ db env).2 hle
      simp only [runTicks, hstep]
      exact ih (a + 1) db (by omega) (by omega)

/-! ## Claim theorems -/

/-- Claim C1: for a Fulfilled event whose request has a tracked row, the
row is removed if and only if the resolved block timestamp of the event is
at most the lock_expires_at of the row; with a strictly later timestamp the store
is returned unchanged, the row still present. -/
theorem fulfilled_removal_iff_within_lock_period (env : TickEnv) (db : Db)
    (log : FulfilledLog) (ts : Nat) (row : OrderRow)
    (hts : resolveTs env log = Except.ok ts)
    (hrow : db.getOrder log.requestId = some row) :
    (ts ≤ row.lockExpiresAt →
      handleFulfilled env db log =
        Except.ok (db.removeOrder log.requestId, [Action.fulfilledCheck log.requestId]) ∧
      (db.removeOrder log.requestId).getOrder log.requestId = none) ∧
    (row.lockExpiresAt < ts →
      handleFulfilled env db log =
        Except.ok (db, [Action.fulfilledCheck log.requestId]) ∧
      db.getOrder log.requestId = some row) := by
  constructor
  · intro hle
    exact ⟨by simp [handleFulfilled, hts, hrow, hle], Db.getOrder_removeOrder_self db _⟩
  · intro hgt
    have hle : ¬ ts ≤ row.lockExpiresAt := by omega
    exact ⟨by simp [handleFulfilled, hts, hrow, hle], hrow⟩

/-- Witness for C1 at a concrete in-lock fulfillment. -/
theorem fulfilled_removal_iff_within_lock_period_witness :
    resolveTs quietEnv ⟨5, some 3, some 50⟩ = Except.ok 50 ∧
    Db.getOrder ⟨[(5, ⟨100, 60⟩)], none⟩ 5 = some ⟨100, 60⟩ ∧
    (handleFulfilled quietEnv ⟨[(5, ⟨100, 60⟩)], none⟩ ⟨5, some 3, some 50⟩ =
      Except.ok ((Db.removeOrder ⟨[(5, ⟨100, 60⟩)], none⟩ 5),
        [Action.fulfilledCheck 5])) :=
  ⟨rfl, rfl,
    ((fulfilled_removal_iff_within_lock_period quietEnv ⟨[(5, ⟨100, 60⟩)], none⟩
      ⟨5, some 3, some 50⟩ 50 ⟨100, 60⟩ rfl rfl).1 (by decide)).1⟩

/-- Claim C2: the persisted cursor equals the upper bound of the range exactly
when all phases of the tick succeeded; when any phase fails, the stored
cursor is unchanged (even though earlier order-row writes persist). -/
theorem cursor_advances_only_after_full_success (env : TickEnv) (skip : List Nat)
    (db : Db) (toBlock : Nat) :
    ((processBlocks env skip db toBlock).err = none →
      (processBlocks env skip db toBlock).db.lastBlock = some toBlock) ∧
    (∀ e, (processBlocks env skip db toBlock).err = some e →
      (processBlocks env skip db toBlock).db.lastBlock = db.lastBlock) := by
  obtain ⟨h1, h2, -⟩ := processBlocks_cursor env skip db toBlock
  exact ⟨fun h => (h1 h).1, h2⟩

/-- Witness for C2 at a concrete fully successful tick. -/
theorem cursor_advances_only_after_full_success_witness :
    (processBlocks quietEnv [] ⟨[], none⟩ 9).err = none ∧
    (processBlocks quietEnv [] ⟨[], none⟩ 9).db.lastBlock = some 9 :=
  ⟨rfl, (cursor_advances_only_after_full_success quietEnv [] ⟨[], none⟩ 9).1 rfl⟩

/-- Claim C4: on a SlashRevert or LogNotEmitted outcome the service
re-queries is_slashed; `true` removes the row and continues the pass with
the remaining due rows, `false` aborts the pass with a SlashRevert error,
which the supervisor classifies as transient. -/
theorem slash_revert_reconciliation (env : TickEnv) (id tx : Nat) (rest : List Nat)
    (db : Db) (tr : List Action)
    (hcall : env.slashCall id = SlashCallResult.slashRevert tx ∨
      env.slashCall id = SlashCallResult.logNotEmitted tx) :
    (env.isSlashed id = some true →
      expiredLoop env (id :: rest) db tr =
        expiredLoop env rest (db.removeOrder id) (tr ++ [Action.schedule id]) ∧
      (db.removeOrder id).getOrder id = none) ∧
    (env.isSlashed id = some false →
      expiredLoop env (id :: rest) db tr =
        ⟨db, tr ++ [Action.schedule id], some (ServiceError.SlashRevert id tx)⟩ ∧
      ServiceError.isFatal (ServiceError.SlashRevert id tx) = false) := by
  rcases hcall with hc | hc
  · constructor
    · intro hs
      exact ⟨by simp [expiredLoop, hc, hs], Db.getOrder_removeOrder_self db id⟩
    · intro hs
      exact ⟨by simp [expiredLoop, hc, hs], rfl⟩
  · constructor
    · intro hs
      exact ⟨by simp [expiredLoop, hc, hs], Db.getOrder_removeOrder_self db id⟩
    · intro hs
      exact ⟨by simp [expiredLoop, hc, hs], rfl⟩

/-- Witness for C4 at a concrete reverted-then-reconciled slash. -/
theorem slash_revert_reconciliation_witness :
    ({ quietEnv with slashCall := fun _ => SlashCallResult.slashRevert 9 } :
        TickEnv).slashCall 4 = SlashCallResult.slashRevert 9 ∧
    ({ quietEnv with slashCall := fun _ => SlashCallResult.slashRevert 9 } :
        TickEnv).isSlashed 4 = some true ∧
    expiredLoop { quietEnv with slashCall := fun _ => SlashCallResult.slashRevert 9 }
        [4] ⟨[(4, ⟨100, 50⟩)], none⟩ [] =
      expiredLoop { quietEnv with slashCall := fun _ => SlashCallResult.slashRevert 9 }
        [] (Db.removeOrder ⟨[(4, ⟨100, 50⟩)], none⟩ 4) [Action.schedule 4] :=
  ⟨rfl, rfl,
    ((slash_revert_reconciliation
      { quietEnv with slashCall := fun _ => SlashCallResult.slashRevert 9 }
      4 9 [] ⟨[(4, ⟨100, 50⟩)], none⟩ [] (Or.inl rfl)).1 rfl).1⟩

/-- Claim C6: the first block to process resolves as
min(starting_block ?? stored_cursor ?? head, head): the operator value
wins when present, else the stored cursor, else the head, always capped
at the current head. -/
theorem startup_from_block_resolution (sb sc : Option Nat) (head : Nat) :
    (∀ s, sb = some s → initialFromBlock sb sc head = min s head) ∧
    (∀ c, sb = none → sc = some c → initialFromBlock sb sc head = min c head) ∧
    (sb = none → sc = none → initialFromBlock sb sc head = head) ∧
    initialFromBlock sb sc head ≤ head ∧
    (∀ (cfg : SlashServiceConfig) (inputs : List TickInput) (db : Db),
      db.getLastBlock = sc →
      runService cfg sb head inputs db =
        runTicks cfg inputs ⟨initialFromBlock sb sc head, 0⟩ db) := by
  refine ⟨?_, ?_, ?_, ?_, ?_⟩
  · intro s h
    subst h
    rfl
  · intro c h1 h2
    subst h1
    subst h2
    rfl
  · intro h1 h2
    subst h1
    subst h2
    simp [initialFromBlock]
  · exact min_le_right _ _
  · intro cfg inputs db h
    rw [runService, h]

/-- Witness for C6: an operator-supplied start below the head wins. -/
theorem startup_from_block_resolution_witness :
    initialFromBlock (some 3) (some 50) 100 = min 3 100 :=
  (startup_from_block_resolution (some 3) (some 50) 100).1 3 rfl

/-- Claim C3: the supervisor classifies every tick error: the six
irrecoverable kinds make the loop return that error, the five recoverable
kinds increment the attempt counter and leave from_block unchanged. -/
theorem run_error_classification (cfg : SlashServiceConfig) (st : SupState) (db : Db)
    (inp : TickInput) (toBlock : Nat) (e : ServiceError)
    (hh : inp.head = some toBlock)
    (hlt : ¬ toBlock < st.fromBlock)
    (herr : (processBlocks inp.env cfg.skipAddresses db
        (chunkTo st.fromBlock cfg.maxBlockRange toBlock)).err = some e) :
    (e.isFatal = true ↔
      (e = ServiceError.DatabaseError ∨ e = ServiceError.InsufficientFunds ∨
       e = ServiceError.MaxRetries ∨ e = ServiceError.TransactionDecodingError ∨
       e = ServiceError.BlockNumberNotFound ∨ e = ServiceError.RequestNotExpired)) ∧
    (e.isFatal = false ↔
      (e = ServiceError.BoundlessMarketError ∨ e = ServiceError.EventQueryError ∨
       e = ServiceError.RpcError ∨ (∃ i t, e = ServiceError.SlashRevert i t) ∨
       (∃ b, e = ServiceError.BlockTimestampNotFound b))) ∧
    (e.isFatal = true →
      tickStep cfg st db inp = TickOutcome.halt e
        (processBlocks inp.env cfg.skipAddresses db
          (chunkTo st.fromBlock cfg.maxBlockRange toBlock)).db
        (processBlocks inp.env cfg.skipAddresses db
          (chunkTo st.fromBlock cfg.maxBlockRange toBlock)).trace) ∧
    (e.isFatal = false → ¬ st.attempt + 1 > cfg.retries →
      tickStep cfg st db inp = TickOutcome.next ⟨st.fromBlock, st.attempt + 1⟩
        (processBlocks inp.env cfg.skipAddresses db
          (chunkTo st.fromBlock cfg.maxBlockRange toBlock)).db
        (processBlocks inp.env cfg.skipAddresses db
          (chunkTo st.fromBlock cfg.maxBlockRange toBlock)).trace) ∧
    (e.isFatal = false → st.attempt + 1 > cfg.retries →
      tickStep cfg st db inp = TickOutcome.halt ServiceError.MaxRetries
        (processBlocks inp.env cfg.skipAddresses db
          (chunkTo st.fromBlock cfg.maxBlockRange toBlock)).db
        (processBlocks inp.env cfg.skipAddresses db
          (chunkTo st.fromBlock cfg.maxBlockRange toBlock)).trace) := by
  refine ⟨?_, ?_, ?_, ?_, ?_⟩
  · cases e <;> simp [ServiceError.isFatal]
  · cases e <;> simp [ServiceError.isFatal]
  · intro hf
    simp [tickStep, hh, hlt, herr, hf]
  · intro hf ha
    simp [tickStep, hh, hlt, herr, hf, ha]
  · intro hf ha
    simp [tickStep, hh, hlt, herr, hf, ha]

/-- Witness for C3: a failed event query surfaces as a transient
EventQueryError and the tick continues with the counter bumped. -/
theorem run_error_classification_witness :
    (⟨some 5, { quietEnv with lockedLogs := none }⟩ : TickInput).head = some 5 ∧
    ¬ (5 : Nat) < (0 : Nat) ∧
    (processBlocks { quietEnv with lockedLogs := none } [] ⟨[], none⟩
      (chunkTo 0 10 5)).err = some ServiceError.EventQueryError ∧
    tickStep ⟨2, 10, []⟩ ⟨0, 0⟩ ⟨[], none⟩
        ⟨some 5, { quietEnv with lockedLogs := none }⟩ =
      TickOutcome.next ⟨0, 1⟩
        (processBlocks { quietEnv with lockedLogs := none } [] ⟨[], none⟩
          (chunkTo 0 10 5)).db
        (processBlocks { quietEnv with lockedLogs := none } [] ⟨[], none⟩
          (chunkTo 0 10 5)).trace :=
  ⟨rfl, by decide, rfl,
    (run_error_classification ⟨2, 10, []⟩ ⟨0, 0⟩ ⟨[], none⟩
      ⟨some 5, { quietEnv with lockedLogs := none }⟩ 5 ServiceError.EventQueryError
      rfl (by decide) rfl).2.2.2.1 rfl (by decide)⟩

/-- Claim C5: the supervisor halts with MaxRetries exactly when the
consecutive-failure counter exceeds retries; retries+1 consecutive
head-fetch failures from a fresh counter produce MaxRetries; and the
counter returns to zero only through a fully successful processing
pass. -/
theorem max_retries_supervision (cfg : SlashServiceConfig) :
    (∀ st db inp db2 tr,
      tickStep cfg st db inp = TickOutcome.halt ServiceError.MaxRetries db2 tr →
      st.attempt + 1 > cfg.retries) ∧
    (∀ env fb db,
      runTicks cfg (List.replicate (cfg.retries + 1) ⟨none, env⟩) ⟨fb, 0⟩ db =
        (⟨fb, cfg.retries⟩, db, some ServiceError.MaxRetries)) ∧
    (∀ st db inp st2 db2 tr,
      tickStep cfg st db inp = TickOutcome.next st2 db2 tr →
      st2.attempt = 0 → st.attempt ≠ 0 →
      ∃ to_, inp.head = some to_ ∧ ¬ to_ < st.fromBlock ∧
        (processBlocks inp.env cfg.skipAddresses db
          (chunkTo st.fromBlock cfg.maxBlockRange to_)).err = none) := by
  refine ⟨?_, ?_, ?_⟩
  · intro st db inp db2 tr h
    exact tickStep_halt_maxRetries cfg st db inp db2 tr h
  · intro env fb db
    exact runTicks_headFail cfg env fb (cfg.retries + 1) 0 db (by omega) (by omega)
  · intro st db inp st2 db2 tr h h0 hne
    exact tickStep_reset_needs_success cfg st db inp st2 db2 tr h h0 hne

/-- Witness for C5: with retries = 2, three consecutive head failures
abort with MaxRetries. -/
theorem max_retries_supervision_witness :
    runTicks ⟨2, 10, []⟩ (List.replicate 3 ⟨none, quietEnv⟩) ⟨0, 0⟩ ⟨[], none⟩ =
      (⟨0, 2⟩, ⟨[], none⟩, some ServiceError.MaxRetries) :=
  (max_retries_supervision ⟨2, 10, []⟩).2.1 quietEnv 0 ⟨[], none⟩

/-- Claim C7: the upper bound of the processed range is
from_block + max_block_range - 1 in u64 arithmetic, capped at the head;
in particular the u64 subtraction wraps when max_block_range = 0 and
from_block = 0, and agrees with the plain formula whenever the
subtraction does not wrap. -/
theorem chunk_upper_bound_formula (fb mbr head : Nat)
    (hfb : fb < U64) (hmbr : mbr < U64) (hhead : fb ≤ head) :
    chunkTo fb mbr head =
      min (((fb : Int) + (mbr : Int) - 1) % ((U64 : Nat) : Int)).toNat head ∧
    (1 ≤ fb + mbr → fb + mbr - 1 < U64 →
      chunkTo fb mbr head = min (fb + mbr - 1) head) := by
  constructor
  · simp only [chunkTo, U64]
    omega
  · intro h1 h2
    simp only [chunkTo, U64] at h2 ⊢
    omega

/-- Witness for C7 at from_block 5, max_block_range 0, head 7: the
wrapped bound is 4. -/
theorem chunk_upper_bound_formula_witness :
    chunkTo 5 0 7 = min (((5 : Int) + (0 : Int) - 1) % ((U64 : Nat) : Int)).toNat 7 ∧
    chunkTo 5 0 7 = min (5 + 0 - 1) 7 :=
  ⟨(chunk_upper_bound_formula 5 0 7 (by norm_num [U64]) (by norm_num [U64])
      (by norm_num)).1,
   (chunk_upper_bound_formula 5 0 7 (by norm_num [U64]) (by norm_num [U64])
      (by norm_num)).2 (by norm_num) (by norm_num [U64])⟩

/-- Claim C9 (store modelled from the spec): the persisted cursor is
monotonically non-decreasing across any full service run — including a
restart whose operator-supplied starting block lies below the stored
cursor — and a successful set_cursor never stores a smaller value. -/
theorem cursor_monotonic_across_operations (cfg : SlashServiceConfig)
    (sb : Option Nat) (head : Nat) (inputs : List TickInput) (db : Db) :
    cursorLe db.lastBlock (runService cfg sb head inputs db).2.1.lastBlock ∧
    (∀ (b : Nat) (db2 : Db), db.setLastBlock b = Except.ok db2 →
      cursorLe db.lastBlock db2.lastBlock) := by
  constructor
  · exact runTicks_cursorLe cfg inputs _ db
  · intro b db2 h
    obtain ⟨h1, h2⟩ := setLastBlock_ok db b db2 h
    rw [h1]
    exact h2

/-- Witness for C9 with a stored cursor of 10 and an operator start of 3. -/
theorem cursor_monotonic_across_operations_witness :
    cursorLe (⟨[], some 10⟩ : Db).lastBlock
      (runService ⟨2, 10, []⟩ (some 3) 100 [] ⟨[], some 10⟩).2.1.lastBlock ∧
    Db.setLastBlock ⟨[], some 10⟩ 12 = Except.ok ⟨[], some 12⟩ ∧
    cursorLe (⟨[], some 10⟩ : Db).lastBlock (⟨[], some 12⟩ : Db).lastBlock :=
  ⟨(cursor_monotonic_across_operations ⟨2, 10, []⟩ (some 3) 100 [] ⟨[], some 10⟩).1,
   rfl,
   (cursor_monotonic_across_operations ⟨2, 10, []⟩ (some 3) 100 [] ⟨[], some 10⟩).2
     12 ⟨[], some 12⟩ rfl⟩

/-- Claim C10: the block timestamp of a Fulfilled event is resolved before the
store is consulted: with no log timestamp, a missing block number fails
the tick with BlockNumberNotFound and a failing lookup surfaces the
transient timestamp or RPC error, even when the request has no tracked
row; only a successful resolution reaches the silent drop. -/
theorem fulfilled_timestamp_resolved_before_store (env : TickEnv) (db : Db)
    (log : FulfilledLog)
    (hts : log.blockTimestamp = none)
    (hrow : db.getOrder log.requestId = none) :
    (log.blockNumber = none →
      handleFulfilled env db log = Except.error ServiceError.BlockNumberNotFound) ∧
    (∀ bn, log.blockNumber = some bn → env.blockTimestamp bn = TsResult.rpcFailure →
      handleFulfilled env db log = Except.error ServiceError.RpcError) ∧
    (∀ bn, log.blockNumber = some bn → env.blockTimestamp bn = TsResult.missingBlock →
      handleFulfilled env db log =
        Except.error (ServiceError.BlockTimestampNotFound bn)) ∧
    (∀ bn ts, log.blockNumber = some bn → env.blockTimestamp bn = TsResult.found ts →
      handleFulfilled env db log = Except.ok (db, [])) ∧
    (∀ e (skip : List Nat) (toBlock : Nat) more,
      handleFulfilled env db log = Except.error e →
      env.lockedLogs = some [] → env.fulfilledLogs = some (log :: more) →
      (processBlocks env skip db toBlock).err = some e) := by
  refine ⟨?_, ?_, ?_, ?_, ?_⟩
  · intro hbn
    simp [handleFulfilled, resolveTs, hts, hbn]
  · intro bn hbn henv
    simp [handleFulfilled, resolveTs, hts, hbn, henv]
  · intro bn hbn henv
    simp [handleFulfilled, resolveTs, hts, hbn, henv]
  · intro bn ts hbn henv
    simp [handleFulfilled, resolveTs, hts, hbn, henv, hrow]
  · intro e skip toBlock more herr hlocked hful
    have h1 : processLockedEvents env skip db = ⟨db, [], none⟩ := by
      simp [processLockedEvents, hlocked, lockedLoop]
    have h2 : processFulfilledEvents env db = ⟨db, [], some e⟩ := by
      simp [processFulfilledEvents, hful, fulfilledLoop, herr]
    simp [processBlocks, h1, h2, seqStep]

/-- Witness for C10: a fulfilled log with no metadata for an untracked
request fails the tick with BlockNumberNotFound. -/
theorem fulfilled_timestamp_resolved_before_store_witness :
    (⟨7, none, none⟩ : FulfilledLog).blockTimestamp = none ∧
    Db.getOrder ⟨[], none⟩ 7 = none ∧
    handleFulfilled { quietEnv with fulfilledLogs := some [⟨7, none, none⟩] }
        ⟨[], none⟩ ⟨7, none, none⟩ =
      Except.error ServiceError.BlockNumberNotFound ∧
    (processBlocks { quietEnv with fulfilledLogs := some [⟨7, none, none⟩] }
        [] ⟨[], none⟩ 9).err = some ServiceError.BlockNumberNotFound :=
  ⟨rfl, rfl,
    (fulfilled_timestamp_resolved_before_store
      { quietEnv with fulfilledLogs := some [⟨7, none, none⟩] }
      ⟨[], none⟩ ⟨7, none, none⟩ rfl rfl).1 rfl,
    (fulfilled_timestamp_resolved_before_store
      { quietEnv with fulfilledLogs := some [⟨7, none, none⟩] }
      ⟨[], none⟩ ⟨7, none, none⟩ rfl rfl).2.2.2.2 ServiceError.BlockNumberNotFound
      [] 9 []
      ((fulfilled_timestamp_resolved_before_store
        { quietEnv with fulfilledLogs := some [⟨7, none, none⟩] }
        ⟨[], none⟩ ⟨7, none, none⟩ rfl rfl).1 rfl) rfl rfl⟩

/-- Claim C8: within a tick the action trace decomposes as all Locked
applications, then all Fulfilled checks, then all Slashed removals, then
all scheduler dispatches, then (at most) the cursor update — so Locked
events are applied before any Fulfilled or Slashed event, the reducers
finish before the scheduler starts, and the cursor is set last. -/
theorem tick_phase_ordering (env : TickEnv) (skip : List Nat) (db : Db)
    (toBlock : Nat) :
    ∃ tL tF tS tE tC,
      (processBlocks env skip db toBlock).trace = tL ++ (tF ++ (tS ++ (tE ++ tC))) ∧
      (∀ a ∈ tL, ∃ i, a = Action.lockedAdd i) ∧
      (∀ a ∈ tF, ∃ i, a = Action.fulfilledCheck i) ∧
      (∀ a ∈ tS, ∃ i, a = Action.slashedRemove i) ∧
      (∀ a ∈ tE, ∃ i, a = Action.schedule i) ∧
      (tC = [] ∨ tC = [Action.cursorSet toBlock]) := by
  have hL := processLockedEvents_trace env skip db
  unfold processBlocks
  rcases seqStep_trace (processLockedEvents env skip db) _ with h1 | h1
  case inr =>
    refine ⟨(processLockedEvents env skip db).trace, [], [], [], [], ?_, hL,
      by simp, by simp, by simp, Or.inl rfl⟩
    rw [h1]
    simp
  case inl =>
    rw [h1]
    have hF := processFulfilledEvents_trace env (processLockedEvents env skip db).db
    rcases seqStep_trace
        (processFulfilledEvents env (processLockedEvents env skip db).db) _ with
      h2 | h2
    case inr =>
      refine ⟨(processLockedEvents env skip db).trace,
        (processFulfilledEvents env (processLockedEvents env skip db).db).trace,
        [], [], [], ?_, hL, hF, by simp, by simp, Or.inl rfl⟩
      rw [h2]
      simp
    case inl =>
      rw [h2]
      have hS := processSlashedEvents_trace env
        (processFulfilledEvents env (processLockedEvents env skip db).db).db
      rcases seqStep_trace
          (processSlashedEvents env
            (processFulfilledEvents env (processLockedEvents env skip db).db).db) _ with
        h3 | h3
      case inr =>
        refine ⟨(processLockedEvents env skip db).trace,
          (processFulfilledEvents env (processLockedEvents env skip db).db).trace,
          (processSlashedEvents env
            (processFulfilledEvents env (processLockedEvents env skip db).db).db).trace,
          [], [], ?_, hL, hF, hS, by simp, Or.inl rfl⟩
        rw [h3]
        simp
      case inl =>
        rw [h3]
        have hE := processExpiredRequests_trace env
          (processSlashedEvents env
            (processFulfilledEvents env
              (processLockedEvents env skip db).db).db).db toBlock
        rcases seqStep_trace
            (processExpiredRequests env
              (processSlashedEvents env
                (processFulfilledEvents env
                  (processLockedEvents env skip db).db).db).db toBlock) _ with
          h4 | h4
        case inr =>
          refine ⟨(processLockedEvents env skip db).trace,
            (processFulfilledEvents env (processLockedEvents env skip db).db).trace,
            (processSlashedEvents env
              (processFulfilledEvents env
                (processLockedEvents env skip db).db).db).trace,
            (processExpiredRequests env
              (processSlashedEvents env
                (processFulfilledEvents env
                  (processLockedEvents env skip db).db).db).db toBlock).trace,
            [], ?_, hL, hF, hS, hE, Or.inl rfl⟩
          rw [h4]
          simp
        case inl =>
          rw [h4]
          refine ⟨(processLockedEvents env skip db).trace,
            (processFulfilledEvents env (processLockedEvents env skip db).db).trace,
            (processSlashedEvents env
              (processFulfilledEvents env
                (processLockedEvents env skip db).db).db).trace,
            (processExpiredRequests env
              (processSlashedEvents env
                (processFulfilledEvents env
                  (processLockedEvents env skip db).db).db).db toBlock).trace,
            (updateLastProcessedBlock toBlock
              (processExpiredRequests env
                (processSlashedEvents env
                  (processFulfilledEvents env
                    (processLockedEvents env skip db).db).db).db toBlock).db).trace,
            by simp, hL, hF, hS, hE,
            updateLastProcessedBlock_trace toBlock _⟩

end Slasher
